import Mathlib

/-!
Verification of the entropy engine of the almanack repository.

The core under verification is the pair of pure functions in
`src/almanack/metrics/entropy/calculate_entropy.py`:

* `calculate_normalized_entropy` — given the change-volume map
  `loc_changes : file → lines changed` (obtained from the external diff
  collaborator `get_loc_changed`), computes `total_changes` as the sum of all
  values and maps every key `f` with count `c` to
  `-(c/total) * log2 (c/total)` when `c ≠ 0 and total ≠ 0`, else `0.0`.
* `calculate_aggregate_entropy` — sums the per-file entropy values and divides
  by `num_files = len(file_names)` when that count is positive, else `0.0`.

The change-volume map is embedded as an association list `List (String × ℕ)`
(Python dict iteration order is preserved by the list; keys play no role in
the numeric computation).  The real-valued computation is embedded over `ℝ`
with `Real.logb 2` for `math.log2`.  The external diff collaborator is out of
scope: the engine is verified over every possible change-volume map.
-/

namespace Almanack

/-- Embedding of `total_changes = sum(loc_changes.values())`
(calculate_entropy.py line 48). -/
def total_changes (loc_changes : List (String × ℕ)) : ℕ :=
  (loc_changes.map Prod.snd).sum

/-- Embedding of the value computed for one key of the dict comprehension in
`calculate_normalized_entropy` (calculate_entropy.py lines 51-65): the term
`-((c / total) * log2 (c / total))` guarded by `c != 0 and total != 0`,
else `0.0`. -/
noncomputable def entropy_term (c total : ℕ) : ℝ :=
  if c ≠ 0 ∧ total ≠ 0 then
    -(((c : ℝ) / (total : ℝ)) * Real.logb 2 ((c : ℝ) / (total : ℝ)))
  else 0

/-- Embedding of `calculate_normalized_entropy` once the change-volume map has
been obtained: the dict comprehension iterating over the keys of
`loc_changes` (calculate_entropy.py lines 51-66; the identical comprehension
also appears in `src/almanack/entropy.py` lines 45-60). -/
noncomputable def calculate_normalized_entropy
    (loc_changes : List (String × ℕ)) : List (String × ℝ) :=
  loc_changes.map (fun p => (p.1, entropy_term p.2 (total_changes loc_changes)))

/-- Embedding of `total_entropy = sum(entropy_calculation.values())`
(calculate_entropy.py line 101). -/
noncomputable def total_entropy (loc_changes : List (String × ℕ)) : ℝ :=
  ((calculate_normalized_entropy loc_changes).map Prod.snd).sum

/-- Embedding of `calculate_aggregate_entropy` (calculate_entropy.py lines
100-108) once the change-volume map has been obtained; `num_files` is
`len(file_names)`, the number of files the caller requested, which the source
keeps independent of the number of keys of the map. -/
noncomputable def calculate_aggregate_entropy
    (loc_changes : List (String × ℕ)) (num_files : ℕ) : ℝ :=
  if 0 < num_files then total_entropy loc_changes / (num_files : ℝ) else 0

/-- Modelled from the spec (section 4.1): the per-file entropy value in the
spec's own words — `0.0` when `c == 0` or `total == 0`, otherwise
`-p * log2 p` with `p = c / total`.  Used only to compare the code's
computation against the spec's formula. -/
noncomputable def spec_entropy_value (c total : ℕ) : ℝ :=
  if c = 0 ∨ total = 0 then 0
  else -(((c : ℝ) / (total : ℝ)) * Real.logb 2 ((c : ℝ) / (total : ℝ)))

/-- Modelled from the spec (section 4.2): the aggregate in the spec's own
words — the sum of the FileEntropyMap values divided by the requested file
count, or `0.0` when that count is `0`. -/
noncomputable def spec_aggregate_value
    (loc_changes : List (String × ℕ)) (num_files : ℕ) : ℝ :=
  if num_files = 0 then 0
  else ((calculate_normalized_entropy loc_changes).map Prod.snd).sum / (num_files : ℝ)

lemma entropy_term_eq_spec (c total : ℕ) :
    entropy_term c total = spec_entropy_value c total := by
  unfold entropy_term spec_entropy_value
  by_cases hc : c = 0
  · simp [hc]
  · by_cases ht : total = 0
    · simp [hc, ht]
    · simp [hc, ht]

/-- C1: for every change-volume map, the per-file entropy function assigns
each file with count `c` the value `0.0` when `c = 0` or the total of all
counts is `0`, and otherwise `-p * log2 p` where `p = c / total` and `total`
is the sum of all counts in the map. -/
theorem spec_C1 (loc_changes : List (String × ℕ)) :
    calculate_normalized_entropy loc_changes =
      loc_changes.map
        (fun p => (p.1, spec_entropy_value p.2 (total_changes loc_changes))) := by
  unfold calculate_normalized_entropy
  exact List.map_congr_left (fun p _ => by rw [entropy_term_eq_spec])

/-- C2: the aggregate entropy function returns the sum of all per-file
entropy values divided by the requested file count `num_files`, and `0.0`
when that count is `0`; the denominator is the requested count, not the
number of keys of the entropy map. -/
theorem spec_C2 (loc_changes : List (String × ℕ)) (num_files : ℕ) :
    calculate_aggregate_entropy loc_changes num_files =
      spec_aggregate_value loc_changes num_files := by
  unfold calculate_aggregate_entropy spec_aggregate_value total_entropy
  by_cases h : num_files = 0
  · simp [h]
  · simp [h, Nat.pos_of_ne_zero h]

/-- C6: the FileEntropyMap returned by the per-file entropy function has
exactly the keys of the input map, in order — one entry per input key — and
every key whose count is `0` appears with value `0.0`. -/
theorem spec_C6 (loc_changes : List (String × ℕ)) :
    (calculate_normalized_entropy loc_changes).map Prod.fst =
        loc_changes.map Prod.fst ∧
      ∀ p ∈ loc_changes, p.2 = 0 →
        (p.1, (0 : ℝ)) ∈ calculate_normalized_entropy loc_changes := by
  constructor
  · unfold calculate_normalized_entropy
    rw [List.map_map]
    rfl
  · intro p hp hp2
    have hterm : entropy_term p.2 (total_changes loc_changes) = 0 := by
      unfold entropy_term
      simp [hp2]
    unfold calculate_normalized_entropy
    rw [List.mem_map]
    exact ⟨p, hp, by rw [hterm]⟩

/-- C6 witness: on the concrete map with the single key `"a"` of count `0`,
the output keys are exactly `["a"]` and the zero-count key receives value
`0.0`. -/
theorem spec_C6_witness :
    (calculate_normalized_entropy [(("a" : String), 0)]).map Prod.fst =
        [(("a" : String), 0)].map Prod.fst ∧
      (("a" : String), (0 : ℝ)) ∈ calculate_normalized_entropy [(("a" : String), 0)] :=
  ⟨(spec_C6 [(("a" : String), 0)]).1,
    (spec_C6 [(("a" : String), 0)]).2 (("a" : String), 0) (by simp) rfl⟩

lemma mul_log_inv_le_inv_exp {p : ℝ} (hp : 0 < p) :
    p * Real.log p⁻¹ ≤ (Real.exp 1)⁻¹ := by
  have hpinv : (0 : ℝ) < p⁻¹ := inv_pos.mpr hp
  have hexp : (0 : ℝ) < Real.exp 1 := Real.exp_pos 1
  have hpos : (0 : ℝ) < p⁻¹ * (Real.exp 1)⁻¹ := mul_pos hpinv (inv_pos.mpr hexp)
  have h1 := Real.log_le_sub_one_of_pos hpos
  rw [Real.log_mul hpinv.ne' (inv_pos.mpr hexp).ne', Real.log_inv (Real.exp 1),
    Real.log_exp] at h1
  have h2 : Real.log p⁻¹ ≤ p⁻¹ * (Real.exp 1)⁻¹ := by linarith
  calc p * Real.log p⁻¹ ≤ p * (p⁻¹ * (Real.exp 1)⁻¹) :=
        mul_le_mul_of_nonneg_left h2 hp.le
    _ = (Real.exp 1)⁻¹ := by field_simp

lemma inv_exp_le_log_two : (Real.exp 1)⁻¹ ≤ Real.log 2 := by
  have he := Real.exp_one_gt_d9
  have hl := Real.log_two_gt_d9
  have h27 : (0 : ℝ) < 2.7182818283 := by norm_num
  have hinv : (Real.exp 1)⁻¹ < (2.7182818283 : ℝ)⁻¹ := inv_strictAnti₀ h27 he
  have : ((2.7182818283 : ℝ))⁻¹ < 0.6931471803 := by norm_num
  linarith

lemma neg_mul_logb_le_one {p : ℝ} (hp : 0 < p) : -(p * Real.logb 2 p) ≤ 1 := by
  have hlog2 : (0 : ℝ) < Real.log 2 := Real.log_pos one_lt_two
  have hkey : p * Real.log p⁻¹ ≤ Real.log 2 :=
    le_trans (mul_log_inv_le_inv_exp hp) inv_exp_le_log_two
  have hrw : -(p * Real.logb 2 p) = p * Real.log p⁻¹ / Real.log 2 := by
    rw [Real.logb, Real.log_inv]
    ring
  rw [hrw, div_le_one hlog2]
  exact hkey

lemma neg_mul_logb_nonneg {p : ℝ} (hp0 : 0 ≤ p) (hp1 : p ≤ 1) :
    0 ≤ -(p * Real.logb 2 p) := by
  have hlb : Real.logb 2 p ≤ 0 := Real.logb_nonpos one_lt_two hp0 hp1
  have : p * Real.logb 2 p ≤ 0 := mul_nonpos_iff.mpr (Or.inl ⟨hp0, hlb⟩)
  linarith

lemma neg_mul_logb_pos {p : ℝ} (hp0 : 0 < p) (hp1 : p < 1) :
    0 < -(p * Real.logb 2 p) := by
  have hlb : Real.logb 2 p < 0 := Real.logb_neg one_lt_two hp0 hp1
  have : p * Real.logb 2 p < 0 := mul_neg_of_pos_of_neg hp0 hlb
  linarith

lemma entropy_term_nonneg {c t : ℕ} (h : c ≤ t) : 0 ≤ entropy_term c t := by
  unfold entropy_term
  split_ifs with hg
  · have ht : (0 : ℝ) < t := by
      exact_mod_cast Nat.pos_of_ne_zero hg.2
    have hp0 : (0 : ℝ) ≤ (c : ℝ) / t := by positivity
    have hp1 : (c : ℝ) / t ≤ 1 := (div_le_one ht).mpr (by exact_mod_cast h)
    exact neg_mul_logb_nonneg hp0 hp1
  · exact le_refl 0

lemma entropy_term_le_one (c t : ℕ) : entropy_term c t ≤ 1 := by
  unfold entropy_term
  split_ifs with hg
  · have ht : (0 : ℝ) < t := by
      exact_mod_cast Nat.pos_of_ne_zero hg.2
    have hc : (0 : ℝ) < c := by
      exact_mod_cast Nat.pos_of_ne_zero hg.1
    exact neg_mul_logb_le_one (div_pos hc ht)
  · norm_num

lemma entropy_term_pos {c t : ℕ} (hc : 0 < c) (hct : c < t) :
    0 < entropy_term c t := by
  have ht : 0 < t := lt_trans hc hct
  unfold entropy_term
  rw [if_pos ⟨hc.ne', ht.ne'⟩]
  have htR : (0 : ℝ) < t := by exact_mod_cast ht
  have hcR : (0 : ℝ) < c := by exact_mod_cast hc
  exact neg_mul_logb_pos (div_pos hcR htR) ((div_lt_one htR).mpr (by exact_mod_cast hct))

lemma entropy_term_self {c : ℕ} (hc : c ≠ 0) : entropy_term c c = 0 := by
  unfold entropy_term
  rw [if_pos ⟨hc, hc⟩, div_self (by exact_mod_cast hc : (c : ℝ) ≠ 0), Real.logb_one]
  ring

lemma entropy_term_eq_zero_iff {c t : ℕ} (h : c ≤ t) :
    entropy_term c t = 0 ↔ ((c : ℝ) / (t : ℝ) = 0 ∨ (c : ℝ) / (t : ℝ) = 1) := by
  constructor
  · intro h0
    by_cases hc : c = 0
    · left
      simp [hc]
    · have htz : t ≠ 0 := fun he => hc (Nat.le_zero.mp (he ▸ h))
      rcases lt_or_eq_of_le h with hct | hct
      · exact absurd h0 (entropy_term_pos (Nat.pos_of_ne_zero hc) hct).ne'
      · right
        rw [hct]
        exact div_self (by exact_mod_cast htz : (t : ℝ) ≠ 0)
  · intro h01
    rcases h01 with hp0 | hp1
    · rcases div_eq_zero_iff.mp hp0 with hcz | htz
      · unfold entropy_term
        simp [Nat.cast_eq_zero.mp hcz]
      · unfold entropy_term
        simp [Nat.cast_eq_zero.mp htz]
    · unfold entropy_term
      split_ifs with hg
      · rw [hp1, Real.logb_one]
        ring
      · rfl

lemma count_le_total {loc_changes : List (String × ℕ)} {p : String × ℕ}
    (hp : p ∈ loc_changes) : p.2 ≤ total_changes loc_changes := by
  unfold total_changes
  exact List.le_sum_of_mem (List.mem_map_of_mem Prod.snd hp)

lemma total_entropy_nonneg (loc_changes : List (String × ℕ)) :
    0 ≤ total_entropy loc_changes := by
  unfold total_entropy calculate_normalized_entropy
  rw [List.map_map]
  apply List.sum_nonneg
  intro x hx
  simp only [List.mem_map, Function.comp] at hx
  obtain ⟨p, hp, rfl⟩ := hx
  exact entropy_term_nonneg (count_le_total hp)

lemma total_entropy_pos {loc_changes : List (String × ℕ)} {p : String × ℕ}
    (hp : p ∈ loc_changes) (hc : 0 < p.2) (hct : p.2 < total_changes loc_changes) :
    0 < total_entropy loc_changes := by
  have hterm : 0 < entropy_term p.2 (total_changes loc_changes) :=
    entropy_term_pos hc hct
  have hmem : entropy_term p.2 (total_changes loc_changes) ∈
      ((calculate_normalized_entropy loc_changes).map Prod.snd) := by
    unfold calculate_normalized_entropy
    rw [List.map_map]
    exact List.mem_map_of_mem _ hp
  have hnn : ∀ x ∈ (calculate_normalized_entropy loc_changes).map Prod.snd, 0 ≤ x := by
    intro x hx
    unfold calculate_normalized_entropy at hx
    rw [List.map_map] at hx
    simp only [List.mem_map, Function.comp] at hx
    obtain ⟨q, hq, rfl⟩ := hx
    exact entropy_term_nonneg (count_le_total hq)
  have hle := List.single_le_sum hnn _ hmem
  unfold total_entropy
  exact lt_of_lt_of_le hterm hle

lemma total_entropy_eq_zero_of_total_changes_eq_zero
    {loc_changes : List (String × ℕ)} (htot : total_changes loc_changes = 0) :
    total_entropy loc_changes = 0 := by
  unfold total_entropy calculate_normalized_entropy
  rw [List.map_map]
  apply List.sum_eq_zero
  intro x hx
  simp only [List.mem_map, Function.comp] at hx
  obtain ⟨p, hp, rfl⟩ := hx
  have hpz : p.2 = 0 := Nat.le_zero.mp (htot ▸ count_le_total hp)
  unfold entropy_term
  simp [hpz]

/-- C8: both functions are total over their input domain; in particular the
per-file entropy of the empty map is the empty map, and the aggregate of the
empty map with requested file count `0` is `0.0`. -/
theorem spec_C8 :
    calculate_normalized_entropy [] = [] ∧
      calculate_aggregate_entropy [] 0 = 0 := by
  constructor
  · rfl
  · unfold calculate_aggregate_entropy
    simp

lemma entropy_term_one_two : entropy_term 1 2 = 1 / 2 := by
  unfold entropy_term
  rw [if_pos ⟨(by norm_num : (1 : ℕ) ≠ 0), (by norm_num : (2 : ℕ) ≠ 0)⟩]
  have h12 : ((1 : ℕ) : ℝ) / ((2 : ℕ) : ℝ) = (2 : ℝ)⁻¹ := by norm_num
  rw [h12, Real.logb_inv, Real.logb_self_eq_one one_lt_two]
  norm_num

/-- C3: every value of the FileEntropyMap lies in the closed range `[0, 1]`.
The per-file term `-p * log2 p` with `p = c / total ∈ (0, 1]` is bounded by
`log2 e / e < 1`, so the range bound holds for every change-volume map. -/
theorem spec_C3 (m : List (String × ℕ)) (f : String) (v : ℝ)
    (hv : (f, v) ∈ calculate_normalized_entropy m) : 0 ≤ v ∧ v ≤ 1 := by
  unfold calculate_normalized_entropy at hv
  rw [List.mem_map] at hv
  obtain ⟨p, hp, he⟩ := hv
  have h2 : entropy_term p.2 (total_changes m) = v := congrArg Prod.snd he
  subst h2
  exact ⟨entropy_term_nonneg (count_le_total hp), entropy_term_le_one _ _⟩

/-- C3 witness: on the concrete one-file map with count `1`, the output value
`0.0` lies in `[0, 1]`. -/
theorem spec_C3_witness :
    ((("a" : String), (0 : ℝ)) ∈ calculate_normalized_entropy [(("a" : String), 1)]) ∧
      (0 ≤ (0 : ℝ) ∧ (0 : ℝ) ≤ 1) := by
  have h0 : entropy_term 1 (total_changes [(("a" : String), 1)]) = 0 := by
    rw [show total_changes [(("a" : String), 1)] = 1 from rfl]
    exact entropy_term_self one_ne_zero
  have hmem : (("a" : String), (0 : ℝ)) ∈
      calculate_normalized_entropy [(("a" : String), 1)] := by
    unfold calculate_normalized_entropy
    rw [List.mem_map]
    exact ⟨(("a" : String), 1), by simp, by rw [h0]⟩
  exact ⟨hmem, spec_C3 _ _ _ hmem⟩

/-- C4: every per-file entropy value is `≥ 0`, and a file's value is exactly
`0.0` if and only if that file's share `c / total` is `0` or `1`; in
particular the value is `0.0` whenever `c = 0` or the total is `0`. -/
theorem spec_C4 (m : List (String × ℕ)) (f : String) (v : ℝ)
    (hv : (f, v) ∈ calculate_normalized_entropy m) :
    0 ≤ v ∧ ∃ c : ℕ, (f, c) ∈ m ∧
      (v = 0 ↔ ((c : ℝ) / (total_changes m : ℝ) = 0 ∨
        (c : ℝ) / (total_changes m : ℝ) = 1)) ∧
      ((c = 0 ∨ total_changes m = 0) → v = 0) := by
  unfold calculate_normalized_entropy at hv
  rw [List.mem_map] at hv
  obtain ⟨p, hp, he⟩ := hv
  have h1 : p.1 = f := congrArg Prod.fst he
  have h2 : entropy_term p.2 (total_changes m) = v := congrArg Prod.snd he
  subst h2
  refine ⟨entropy_term_nonneg (count_le_total hp), p.2, ?_,
    entropy_term_eq_zero_iff (count_le_total hp), ?_⟩
  · have hp' : (p.1, p.2) ∈ m := by simpa using hp
    rw [h1] at hp'
    exact hp'
  · intro h
    rcases h with hc | ht
    · unfold entropy_term
      simp [hc]
    · unfold entropy_term
      simp [ht]

/-- C4 witness: on the two-file map with counts `1` and `1`, the key `"a"`
receives value `1/2`, which is nonnegative and nonzero exactly because its
share `1/2` is neither `0` nor `1`. -/
theorem spec_C4_witness :
    ((("a" : String), (1 / 2 : ℝ)) ∈
        calculate_normalized_entropy [(("a" : String), 1), (("b" : String), 1)]) ∧
      (0 ≤ (1 / 2 : ℝ) ∧ ∃ c : ℕ,
        (("a" : String), c) ∈ [(("a" : String), 1), (("b" : String), 1)] ∧
        ((1 / 2 : ℝ) = 0 ↔
          ((c : ℝ) / (total_changes [(("a" : String), 1), (("b" : String), 1)] : ℝ) = 0 ∨
           (c : ℝ) / (total_changes [(("a" : String), 1), (("b" : String), 1)] : ℝ) = 1)) ∧
        ((c = 0 ∨ total_changes [(("a" : String), 1), (("b" : String), 1)] = 0) →
          (1 / 2 : ℝ) = 0)) := by
  have htot : total_changes [(("a" : String), 1), (("b" : String), 1)] = 2 := rfl
  have hmem : (("a" : String), (1 / 2 : ℝ)) ∈
      calculate_normalized_entropy [(("a" : String), 1), (("b" : String), 1)] := by
    unfold calculate_normalized_entropy
    rw [List.mem_map]
    refine ⟨(("a" : String), 1), by simp, ?_⟩
    rw [htot, entropy_term_one_two]
  exact ⟨hmem, spec_C4 _ _ _ hmem⟩

/-- C5 counterexample: on the one-file map with count `5` and requested file
count `1`, the aggregate is `0.0` even though there is a requested file and
there are changes — refuting "equals 0.0 exactly when there are no requested
files or no changes at all". -/
theorem spec_C5_counterexample :
    calculate_aggregate_entropy [(("a" : String), 5)] 1 = 0 ∧
      (1 : ℕ) ≠ 0 ∧ total_changes [(("a" : String), 5)] ≠ 0 := by
  refine ⟨?_, by norm_num,
    by rw [show total_changes [(("a" : String), 5)] = 5 from rfl]; norm_num⟩
  unfold calculate_aggregate_entropy
  rw [if_pos Nat.one_pos]
  have hs : total_entropy [(("a" : String), 5)] = 0 := by
    unfold total_entropy calculate_normalized_entropy
    rw [show total_changes [(("a" : String), 5)] = 5 from rfl]
    simp [entropy_term_self]
  rw [hs, zero_div]

/-- C5 (amended): the aggregate entropy is nonnegative; it is `0.0` whenever
there are no requested files or no changes at all (though not only then: a
single file concentrating all changes also yields `0.0`); and it is strictly
positive whenever the requested file count is at least `1` and at least one
file's share of the total is strictly between `0` and `1`. -/
theorem spec_C5 (m : List (String × ℕ)) (n : ℕ) :
    0 ≤ calculate_aggregate_entropy m n ∧
      ((n = 0 ∨ total_changes m = 0) → calculate_aggregate_entropy m n = 0) ∧
      (1 ≤ n →
        (∃ p ∈ m, 0 < (p.2 : ℝ) / (total_changes m : ℝ) ∧
          (p.2 : ℝ) / (total_changes m : ℝ) < 1) →
        0 < calculate_aggregate_entropy m n) := by
  refine ⟨?_, ?_, ?_⟩
  · unfold calculate_aggregate_entropy
    split_ifs with hn
    · exact div_nonneg (total_entropy_nonneg m) (by positivity)
    · exact le_refl 0
  · intro h
    rcases h with hn | ht
    · unfold calculate_aggregate_entropy
      rw [if_neg (by omega)]
    · unfold calculate_aggregate_entropy
      split_ifs with hn
      · rw [total_entropy_eq_zero_of_total_changes_eq_zero ht, zero_div]
      · rfl
  · intro hn hex
    obtain ⟨p, hp, hp0, hp1⟩ := hex
    have htne : total_changes m ≠ 0 := by
      intro h
      rw [h] at hp0
      simp at hp0
    have htR : (0 : ℝ) < (total_changes m : ℝ) := by
      exact_mod_cast Nat.pos_of_ne_zero htne
    have hcne : 0 < p.2 := by
      rcases Nat.eq_zero_or_pos p.2 with hz | hpos
      · rw [hz] at hp0
        simp at hp0
      · exact hpos
    have hct : p.2 < total_changes m := by
      exact_mod_cast (div_lt_one htR).mp hp1
    have hS := total_entropy_pos hp hcne hct
    unfold calculate_aggregate_entropy
    rw [if_pos (by omega : 0 < n)]
    exact div_pos hS (by exact_mod_cast (by omega : 0 < n))

/-- C5 witness: on the two-file map with counts `1` and `1` and requested
file count `2`, the amended claim yields a strictly positive aggregate. -/
theorem spec_C5_witness :
    0 < calculate_aggregate_entropy [(("a" : String), 1), (("b" : String), 1)] 2 := by
  have htot : total_changes [(("a" : String), 1), (("b" : String), 1)] = 2 := rfl
  refine (spec_C5 [(("a" : String), 1), (("b" : String), 1)] 2).2.2 (by norm_num) ?_
  refine ⟨(("a" : String), 1), by simp, ?_, ?_⟩
  · rw [htot]
    norm_num
  · rw [htot]
    norm_num

/-- C7: the aggregate entropy of the 3-file map with counts 20, 10, 5 and
requested file count 3 is strictly greater than the aggregate entropy of the
1-file map with count 5 and requested file count 1 (the latter is exactly
`0.0`). -/
theorem spec_C7 :
    calculate_aggregate_entropy [(("f1" : String), 5)] 1 <
      calculate_aggregate_entropy
        [(("f1" : String), 20), (("f2" : String), 10), (("f3" : String), 5)] 3 := by
  have hL : calculate_aggregate_entropy [(("f1" : String), 5)] 1 = 0 := by
    unfold calculate_aggregate_entropy
    rw [if_pos Nat.one_pos]
    have hs : total_entropy [(("f1" : String), 5)] = 0 := by
      unfold total_entropy calculate_normalized_entropy
      rw [show total_changes [(("f1" : String), 5)] = 5 from rfl]
      simp [entropy_term_self]
    rw [hs, zero_div]
  have htot : total_changes
      [(("f1" : String), 20), (("f2" : String), 10), (("f3" : String), 5)] = 35 := rfl
  have hS : 0 < total_entropy
      [(("f1" : String), 20), (("f2" : String), 10), (("f3" : String), 5)] := by
    apply total_entropy_pos (p := (("f1" : String), 20)) (by simp) (by norm_num)
    rw [htot]
    norm_num
  have hR : 0 < calculate_aggregate_entropy
      [(("f1" : String), 20), (("f2" : String), 10), (("f3" : String), 5)] 3 := by
    unfold calculate_aggregate_entropy
    rw [if_pos (by norm_num : (0 : ℕ) < 3)]
    exact div_pos hS (by norm_num)
  rw [hL]
  exact hR

lemma total_changes_scale (m : List (String × ℕ)) (k : ℕ) :
    total_changes (m.map fun p => (p.1, k * p.2)) = k * total_changes m := by
  unfold total_changes
  rw [List.map_map]
  exact List.sum_map_mul_left m Prod.snd k

lemma entropy_term_scale {k : ℕ} (hk : 0 < k) (c t : ℕ) :
    entropy_term (k * c) (k * t) = entropy_term c t := by
  have hk0 : (k : ℝ) ≠ 0 := Nat.cast_ne_zero.mpr hk.ne'
  unfold entropy_term
  by_cases h : c ≠ 0 ∧ t ≠ 0
  · rw [if_pos h, if_pos ⟨Nat.mul_ne_zero hk.ne' h.1, Nat.mul_ne_zero hk.ne' h.2⟩]
    have hdiv : ((k * c : ℕ) : ℝ) / ((k * t : ℕ) : ℝ) = (c : ℝ) / (t : ℝ) := by
      push_cast
      rw [mul_div_mul_left _ _ hk0]
    rw [hdiv]
  · have h' : ¬(k * c ≠ 0 ∧ k * t ≠ 0) := by
      intro ⟨h1, h2⟩
      exact h ⟨fun hc => h1 (by rw [hc, Nat.mul_zero]),
        fun ht => h2 (by rw [ht, Nat.mul_zero])⟩
    rw [if_neg h', if_neg h]

/-- C9 (scale invariance): multiplying every count of the change-volume map
by a positive integer `k` leaves every per-file entropy value unchanged
(every share `p = c / total` is unchanged), and hence leaves the aggregate
entropy unchanged for every requested file count. -/
theorem spec_C9 (m : List (String × ℕ)) (k : ℕ) (hk : 0 < k) :
    calculate_normalized_entropy (m.map fun p => (p.1, k * p.2)) =
        calculate_normalized_entropy m ∧
      ∀ n : ℕ, calculate_aggregate_entropy (m.map fun p => (p.1, k * p.2)) n =
        calculate_aggregate_entropy m n := by
  have hmain : calculate_normalized_entropy (m.map fun p => (p.1, k * p.2)) =
      calculate_normalized_entropy m := by
    unfold calculate_normalized_entropy
    rw [total_changes_scale, List.map_map]
    apply List.map_congr_left
    intro p _
    simp only [Function.comp]
    rw [entropy_term_scale hk]
  refine ⟨hmain, fun n => ?_⟩
  unfold calculate_aggregate_entropy total_entropy
  rw [hmain]

/-- C9 witness: doubling the single count `3` of a one-file map leaves both
the per-file entropy map and every aggregate unchanged. -/
theorem spec_C9_witness :
    0 < 2 ∧
      (calculate_normalized_entropy
          ([(("a" : String), 3)].map fun p => (p.1, 2 * p.2)) =
          calculate_normalized_entropy [(("a" : String), 3)] ∧
        ∀ n : ℕ, calculate_aggregate_entropy
            ([(("a" : String), 3)].map fun p => (p.1, 2 * p.2)) n =
          calculate_aggregate_entropy [(("a" : String), 3)] n) :=
  ⟨by norm_num, spec_C9 [(("a" : String), 3)] 2 (by norm_num)⟩

/-- C10 (denominator monotonicity): for a fixed change-volume map the
aggregate entropy is antitone in the requested file count on counts `≥ 1`,
and strictly antitone whenever the total per-file entropy is positive. -/
theorem spec_C10 (m : List (String × ℕ)) (n1 n2 : ℕ)
    (h1 : 1 ≤ n1) (h12 : n1 ≤ n2) :
    calculate_aggregate_entropy m n2 ≤ calculate_aggregate_entropy m n1 ∧
      (0 < total_entropy m → n1 < n2 →
        calculate_aggregate_entropy m n2 < calculate_aggregate_entropy m n1) := by
  have hn1 : 0 < n1 := h1
  have hn2 : 0 < n2 := lt_of_lt_of_le hn1 h12
  have hn1R : (0 : ℝ) < (n1 : ℝ) := by exact_mod_cast hn1
  constructor
  · unfold calculate_aggregate_entropy
    rw [if_pos hn1, if_pos hn2]
    rw [div_eq_mul_inv, div_eq_mul_inv]
    apply mul_le_mul_of_nonneg_left _ (total_entropy_nonneg m)
    exact inv_anti₀ hn1R (by exact_mod_cast h12)
  · intro hS hlt
    unfold calculate_aggregate_entropy
    rw [if_pos hn1, if_pos hn2]
    exact div_lt_div_of_pos_left hS hn1R (by exact_mod_cast hlt)

/-- C10 witness: on the two-file map with counts `1` and `1`, raising the
requested file count from `1` to `2` strictly lowers the aggregate. -/
theorem spec_C10_witness :
    (1 : ℕ) ≤ 1 ∧ (1 : ℕ) ≤ 2 ∧
      calculate_aggregate_entropy [(("a" : String), 1), (("b" : String), 1)] 2 <
        calculate_aggregate_entropy [(("a" : String), 1), (("b" : String), 1)] 1 := by
  have htot : total_changes [(("a" : String), 1), (("b" : String), 1)] = 2 := rfl
  have hS : 0 < total_entropy [(("a" : String), 1), (("b" : String), 1)] := by
    apply total_entropy_pos (p := (("a" : String), 1)) (by simp) (by norm_num)
    rw [htot]
    norm_num
  exact ⟨le_rfl, by norm_num,
    (spec_C10 [(("a" : String), 1), (("b" : String), 1)] 1 2 le_rfl
      (by norm_num)).2 hS (by norm_num)⟩

end Almanack
